import Mathlib

/-!
Shallow embedding of the `supertask` persistent key-value store
(`src/store.rs`): the `Database` in-memory ordered map with whole-map
snapshot persistence, and the `Store` handle that guards it with a
reader/writer lock and saves to disk after every mutation.
-/

/-- Byte sequences: file contents and encoded values (`Vec<u8>`). -/
abbrev Bytes := List Nat

/-- Modelled from the spec: the kinds of filesystem errors
(`std::io::ErrorKind`) the store distinguishes. `NotFound` triggers
database creation in `load`; every other kind propagates. `Other` is also
the kind carried by the "Lock poisoned" error. -/
inductive ErrorKind where
  | NotFound
  | PermissionDenied
  | Other
deriving DecidableEq

/-- `StoreError` from `src/store.rs`: `Io` wraps a filesystem error,
`Bincode` is a serialization or deserialization failure, and
`KeyNotFound` carries the missing key. -/
inductive StoreError where
  | Io (kind : ErrorKind)
  | Bincode
  | KeyNotFound (key : String)
deriving DecidableEq

/-- Modelled from the spec: a serde/bincode codec for one value type — the
encode/decode boundary of §3. `encode` may fail (a value's shape can be
incompatible with the format); bincode's contract is that decoding the
bytes produced by a successful encode, at the same type, returns the
value that was encoded. -/
structure Codec (α : Type) where
  encode : α → Option Bytes
  decode : Bytes → Option α
  decode_encode : ∀ a b, encode a = some b → decode b = some a

/-- Look up a key in an association list (`BTreeMap::get`). -/
def lookupKey (k : String) : List (String × Bytes) → Option Bytes
  | [] => none
  | (k', b) :: rest => if k = k' then some b else lookupKey k rest

/-- Insert or replace a key in a key-sorted association list
(`BTreeMap::insert`). -/
def insertKey (k : String) (b : Bytes) : List (String × Bytes) → List (String × Bytes)
  | [] => [(k, b)]
  | (k', b') :: rest =>
    if k < k' then (k, b) :: (k', b') :: rest
    else if k = k' then (k, b) :: rest
    else (k', b') :: insertKey k b rest

/-- Remove a key from an association list (`BTreeMap::remove`): in a
key-sorted duplicate-free list this deletes the unique entry if present. -/
def eraseKey (k : String) : List (String × Bytes) → List (String × Bytes)
  | [] => []
  | (k', b') :: rest => if k = k' then eraseKey k rest else (k', b') :: eraseKey k rest

/-- `Database` from `src/store.rs`: the ordered key → encoded-bytes map
(`BTreeMap<String, Vec<u8>>`), modelled as a key-sorted association
list. -/
structure Database where
  data : List (String × Bytes)
deriving DecidableEq

/-- `Database::new`: the empty map. -/
def Database.new : Database := ⟨[]⟩

/-- `Database::set`: encode the value with bincode; on success insert or
replace the entry for the key. An encoding failure is returned before the
map is touched. -/
def Database.set {α : Type} (codec : Codec α) (db : Database) (key : String) (value : α) :
    Except StoreError Database :=
  match codec.encode value with
  | some encoded => .ok ⟨insertKey key encoded db.data⟩
  | none => .error .Bincode

/-- `Database::get`: look up the key; if present, decode the stored bytes
at the caller's type (`Bincode` error on decode failure); if absent, fail
with `KeyNotFound(key)`. -/
def Database.get {α : Type} (codec : Codec α) (db : Database) (key : String) :
    Except StoreError α :=
  match lookupKey key db.data with
  | some bytes =>
    match codec.decode bytes with
    | some decoded => .ok decoded
    | none => .error .Bincode
  | none => .error (.KeyNotFound key)

/-- `Database::remove`: delete the entry for the key; absence is a
no-op. -/
def Database.remove (db : Database) (key : String) : Database :=
  ⟨eraseKey key db.data⟩

/-- Modelled from the spec: bincode's length-prefixed encoding of one byte
vector. -/
def encodeBytes (b : Bytes) : Bytes :=
  b.length :: b

/-- Modelled from the spec: bincode's length-prefixed encoding of a string
(its codepoint sequence). -/
def encodeString (s : String) : Bytes :=
  encodeBytes (s.toList.map Char.toNat)

/-- Entry-by-entry encoding of the map's key/value pairs. -/
def encodeEntries : List (String × Bytes) → Bytes
  | [] => []
  | (k, v) :: rest => encodeString k ++ (encodeBytes v ++ encodeEntries rest)

/-- Modelled from the spec: `bincode::serialize(&Database)` — the single
self-contained binary encoding of the whole ordered map (§6): the entry
count followed by the length-prefixed entries. -/
def encodeDatabase (db : Database) : Bytes :=
  db.data.length :: encodeEntries db.data

/-- Read one length-prefixed segment off the front of a byte string. -/
def decodeSeg : Bytes → Option (Bytes × Bytes)
  | [] => none
  | n :: rest => if n ≤ rest.length then some (rest.take n, rest.drop n) else none

/-- Decode `n` map entries off the front of a byte string. -/
def decodeEntries : Nat → Bytes → Option (List (String × Bytes) × Bytes)
  | 0, rest => some ([], rest)
  | n + 1, rest =>
    match decodeSeg rest with
    | none => none
    | some (ks, rest1) =>
      match decodeSeg rest1 with
      | none => none
      | some (vs, rest2) =>
        match decodeEntries n rest2 with
        | none => none
        | some (tail, rest3) => some ((String.mk (ks.map Char.ofNat), vs) :: tail, rest3)

/-- Modelled from the spec: `bincode::deserialize::<Database>`, failing on
bytes that are not a valid encoding (truncated or corrupted). -/
def decodeDatabase (bytes : Bytes) : Option Database :=
  match bytes with
  | [] => none
  | n :: rest =>
    match decodeEntries n rest with
    | some (entries, []) => some ⟨entries⟩
    | _ => none

theorem lookupKey_insertKey_self (k : String) (b : Bytes) (l : List (String × Bytes)) :
    lookupKey k (insertKey k b l) = some b := by
  induction l with
  | nil => simp [insertKey, lookupKey]
  | cons p rest ih =>
    obtain ⟨k', b'⟩ := p
    by_cases h1 : k < k'
    · simp [insertKey, h1, lookupKey]
    · by_cases h2 : k = k'
      · simp [insertKey, h1, h2, lookupKey]
      · simp [insertKey, h1, h2, lookupKey, ih]

theorem lookupKey_insertKey_ne (k k' : String) (hne : k' ≠ k) (b : Bytes)
    (l : List (String × Bytes)) :
    lookupKey k' (insertKey k b l) = lookupKey k' l := by
  induction l with
  | nil => simp [insertKey, lookupKey, hne]
  | cons p rest ih =>
    obtain ⟨k'', b''⟩ := p
    by_cases h1 : k < k''
    · simp [insertKey, h1, lookupKey, hne]
    · by_cases h2 : k = k''
      · subst h2
        simp [insertKey, h1, lookupKey, hne]
      · by_cases h3 : k' = k''
        · simp [insertKey, h1, h2, lookupKey, h3]
        · simp [insertKey, h1, h2, lookupKey, h3, ih]

theorem lookupKey_eraseKey_self (k : String) (l : List (String × Bytes)) :
    lookupKey k (eraseKey k l) = none := by
  induction l with
  | nil => simp [eraseKey, lookupKey]
  | cons p rest ih =>
    obtain ⟨k', b'⟩ := p
    by_cases h : k = k'
    · subst h
      simp [eraseKey, ih]
    · simp [eraseKey, h, lookupKey, ih]

theorem lookupKey_eraseKey_ne (k k' : String) (hne : k' ≠ k) (l : List (String × Bytes)) :
    lookupKey k' (eraseKey k l) = lookupKey k' l := by
  induction l with
  | nil => simp [eraseKey]
  | cons p rest ih =>
    obtain ⟨k'', b''⟩ := p
    by_cases h : k = k''
    · subst h
      simp [eraseKey, lookupKey, ih, hne]
    · by_cases h2 : k' = k''
      · simp [eraseKey, h, lookupKey, h2]
      · simp [eraseKey, h, lookupKey, h2, ih]

theorem eraseKey_of_lookupKey_none (k : String) (l : List (String × Bytes))
    (h : lookupKey k l = none) : eraseKey k l = l := by
  induction l with
  | nil => simp [eraseKey]
  | cons p rest ih =>
    obtain ⟨k', b'⟩ := p
    by_cases hk : k = k'
    · simp [lookupKey, hk] at h
    · simp [lookupKey, hk] at h
      simp [eraseKey, hk, ih h]

theorem decodeSeg_encode (l rest : Bytes) :
    decodeSeg (l.length :: (l ++ rest)) = some (l, rest) := by
  have h : l.length ≤ (l ++ rest).length := by simp
  simp [decodeSeg, h, List.take_left, List.drop_left]

theorem string_mk_map_ofNat_toNat (s : String) :
    String.mk ((s.toList.map Char.toNat).map Char.ofNat) = s := by
  rw [List.map_map]
  have h : (Char.ofNat ∘ Char.toNat) = id := funext Char.ofNat_toNat
  rw [h, List.map_id]
  cases s
  rfl

theorem decodeEntries_encodeEntries (entries : List (String × Bytes)) (rest : Bytes) :
    decodeEntries entries.length (encodeEntries entries ++ rest) = some (entries, rest) := by
  induction entries generalizing rest with
  | nil => simp [encodeEntries, decodeEntries]
  | cons e tail ih =>
    obtain ⟨k, v⟩ := e
    simp only [encodeEntries, encodeString, encodeBytes, List.length_cons, List.append_assoc,
      List.cons_append, decodeEntries, decodeSeg_encode, ih, string_mk_map_ofNat_toNat]

/-- Decoding the snapshot encoding of any database yields it back. -/
theorem decodeDatabase_encodeDatabase (db : Database) :
    decodeDatabase (encodeDatabase db) = some db := by
  obtain ⟨entries⟩ := db
  have h := decodeEntries_encodeEntries entries []
  rw [List.append_nil] at h
  simp [decodeDatabase, encodeDatabase, h]

/-- Modelled from the spec: the filesystem visible to the store — file
contents by path, the set of existing directories, and injected failures
for `File::open` and for `File::create`/`write_all`/`flush` (permission
denied, disk full, I/O fault). -/
structure FileSys where
  files : List (String × Bytes)
  dirs : List String
  openError : Option ErrorKind
  createError : Option ErrorKind
deriving DecidableEq

/-- Modelled from the spec: `File::open` followed by `read_to_end` — the
injected failure if any, otherwise the file's bytes, otherwise
`NotFound`. -/
def openFile (fs : FileSys) (path : String) : Except ErrorKind Bytes :=
  match fs.openError with
  | some e => .error e
  | none =>
    match lookupKey path fs.files with
    | some bytes => .ok bytes
    | none => .error .NotFound

/-- Split a path into its slash-separated components. -/
def splitSlash : List Char → List (List Char)
  | [] => [[]]
  | c :: rest =>
    if c = '/' then [] :: splitSlash rest
    else
      match splitSlash rest with
      | [] => [[c]]
      | p :: ps => (c :: p) :: ps

/-- Join path components with slashes. -/
def joinSlash : List (List Char) → List Char
  | [] => []
  | [c] => c
  | c :: rest => c ++ '/' :: joinSlash rest

/-- The chain of parent directories of a path, outermost first: the
directories `path.parent()` followed by `fs::create_dir_all` brings into
existence. -/
def ancestors (path : String) : List String :=
  let comps := splitSlash path.toList
  (List.range (comps.length - 1)).map fun i => String.mk (joinSlash (comps.take (i + 1)))

/-- `Database::save`: encode the entire map and write it to the path,
replacing prior contents (`File::create` + `write_all` + `flush`); a
filesystem failure propagates as `Io` and, in this model, leaves the file
table unchanged. -/
def Database.save (db : Database) (path : String) (fs : FileSys) :
    Except StoreError FileSys :=
  match fs.createError with
  | some e => .error (.Io e)
  | none => .ok { fs with files := insertKey path (encodeDatabase db) fs.files }

/-- `Database::load`: create the missing parent directories, then open the
file. If it exists, decode it (`Bincode` error on invalid bytes, with no
recovery). If it is missing, persist and return an empty database. Any
other filesystem error propagates as `Io`. The second component is the
filesystem after the call, whatever the outcome. -/
def Database.load (path : String) (fs : FileSys) :
    Except StoreError Database × FileSys :=
  let fs1 := { fs with dirs := ancestors path ++ fs.dirs }
  match openFile fs1 path with
  | .ok buffer =>
    match decodeDatabase buffer with
    | some db => (.ok db, fs1)
    | none => (.error .Bincode, fs1)
  | .error e =>
    if e = .NotFound then
      match Database.new.save path fs1 with
      | .ok fs2 => (.ok Database.new, fs2)
      | .error err => (.error err, fs1)
    else (.error (.Io e), fs1)

/-- `Store` from `src/store.rs`: the shared database behind an `RwLock`
(whose poison state is modelled explicitly) plus the persistence path. -/
structure Store where
  db : Database
  path : String
  poisoned : Bool
deriving DecidableEq

/-- `Store::open`: load (or create) the database at the path and wrap it
in a fresh, unpoisoned lock. -/
def Store.«open» (path : String) (fs : FileSys) : Except StoreError Store × FileSys :=
  match Database.load path fs with
  | (.ok db, fs') => (.ok ⟨db, path, false⟩, fs')
  | (.error e, fs') => (.error e, fs')

/-- `Store::set`: acquire the write lock (an `Io` "Lock poisoned" error if
it is poisoned), encode and insert in memory, then save. The returned
`Store` and `FileSys` are the states after the call: on a save failure
the in-memory map keeps the new entry while the file does not. -/
def Store.set {α : Type} (codec : Codec α) (s : Store) (key : String) (value : α)
    (fs : FileSys) : Except StoreError Unit × Store × FileSys :=
  if s.poisoned then (.error (.Io .Other), s, fs)
  else
    match s.db.set codec key value with
    | .error e => (.error e, s, fs)
    | .ok db' =>
      match db'.save s.path fs with
      | .error e => (.error e, { s with db := db' }, fs)
      | .ok fs' => (.ok (), { s with db := db' }, fs')

/-- `Store::get`: acquire the read lock (an `Io` "Lock poisoned" error if
it is poisoned) and delegate to `Database::get`. -/
def Store.get {α : Type} (codec : Codec α) (s : Store) (key : String) :
    Except StoreError α :=
  if s.poisoned then .error (.Io .Other)
  else s.db.get codec key

/-- `Store::remove`: acquire the write lock, remove in memory, then
save. -/
def Store.remove (s : Store) (key : String) (fs : FileSys) :
    Except StoreError Unit × Store × FileSys :=
  if s.poisoned then (.error (.Io .Other), s, fs)
  else
    let db' := s.db.remove key
    match db'.save s.path fs with
    | .error e => (.error e, { s with db := db' }, fs)
    | .ok fs' => (.ok (), { s with db := db' }, fs')

/-- A concrete codec (a natural number as a one-element byte string) used
to instantiate the generic theorems. -/
def natCodec : Codec Nat where
  encode n := some [n]
  decode b := match b with | [n] => some n | _ => none
  decode_encode := by
    intro a b h
    cases h
    rfl

/-- A concrete codec whose encoder rejects zero, exercising the
serialization-failure paths. -/
def fallibleCodec : Codec Nat where
  encode n := if n = 0 then none else some [n]
  decode b := match b with | [n] => if n = 0 then none else some n | _ => none
  decode_encode := by
    intro a b h
    by_cases ha : a = 0
    · simp [ha] at h
    · simp [ha] at h
      cases h
      simp [ha]

/-- A mutation of the store's map, as issued through the public API. -/
inductive Op where
  | setOp (key : String) (value : Nat)
  | removeOp (key : String)
deriving DecidableEq

/-- The key an operation targets. -/
def Op.key : Op → String
  | .setOp k _ => k
  | .removeOp k => k

/-- Apply one mutation to the in-memory database the way the store does:
`setOp` through `Database::set` (a failed encode leaves the map
untouched), `removeOp` through `Database::remove`. -/
def applyOp (db : Database) : Op → Database
  | .setOp k v =>
    match db.set natCodec k v with
    | .ok db' => db'
    | .error _ => db
  | .removeOp k => db.remove k

/-- The database reached from a fresh store by a sequence of mutations. -/
def applyOps (ops : List Op) : Database :=
  ops.foldl applyOp Database.new

/-- The last mutation in a history that targets the given key, if any. -/
def lastTouch (k : String) (ops : List Op) : Option Op :=
  (ops.filter fun op => op.key == k).getLast?

/-- An empty filesystem with no injected failures. -/
def fs0 : FileSys := ⟨[], [], none, none⟩

theorem applyOps_append (ops : List Op) (op : Op) :
    applyOps (ops ++ [op]) = applyOp (applyOps ops) op := by
  simp [applyOps, List.foldl_append]

theorem lastTouch_append (k : String) (ops : List Op) (op : Op) :
    lastTouch k (ops ++ [op]) = if op.key = k then some op else lastTouch k ops := by
  by_cases h : op.key = k
  · simp [lastTouch, List.filter_append, h, List.getLast?_concat]
  · simp [lastTouch, List.filter_append, h]

theorem lookupKey_applyOps_none (k : String) (ops : List Op)
    (hist : lastTouch k ops = none ∨ lastTouch k ops = some (Op.removeOp k)) :
    lookupKey k (applyOps ops).data = none := by
  induction ops using List.reverseRecOn with
  | nil => simp [applyOps, Database.new, lookupKey]
  | append_singleton ops op ih =>
    rw [lastTouch_append] at hist
    rw [applyOps_append]
    by_cases hk : op.key = k
    · simp only [if_pos hk] at hist
      simp at hist
      subst hist
      simp [applyOp, Database.remove, lookupKey_eraseKey_self]
    · simp only [if_neg hk] at hist
      have h0 := ih hist
      cases op with
      | setOp k2 v =>
        have hne : k ≠ k2 := fun h => hk (by simp [Op.key, h])
        simp [applyOp, Database.set, natCodec, lookupKey_insertKey_ne k2 k hne, h0]
      | removeOp k2 =>
        have hne : k ≠ k2 := fun h => hk (by simp [Op.key, h])
        simp [applyOp, Database.remove, lookupKey_eraseKey_ne k2 k hne, h0]

/-- C1: for every key and every encodable value, `Store::set` followed by
`Store::get` at the same type (with no intervening mutation of the key)
succeeds and returns a value equal to the one written. -/
theorem c1_set_get_roundtrip {α : Type} (codec : Codec α) (s : Store) (key : String)
    (value : α) (encoded : Bytes) (fs : FileSys)
    (hp : s.poisoned = false) (henc : codec.encode value = some encoded) :
    Store.get codec (Store.set codec s key value fs).2.1 key = .ok value := by
  have hdec := codec.decode_encode value encoded henc
  cases hc : fs.createError <;>
    simp [Store.set, hp, Database.set, henc, Database.save, hc, Store.get,
      Database.get, lookupKey_insertKey_self, hdec]

theorem c1_witness :
    Store.get natCodec
      (Store.set natCodec ⟨Database.new, "db/test.db", false⟩ "key1" 7 fs0).2.1 "key1"
      = .ok 7 :=
  c1_set_get_roundtrip natCodec ⟨Database.new, "db/test.db", false⟩ "key1" 7 [7] fs0 rfl rfl

/-- C2: decoding the bytes `Database::save` writes reconstructs exactly the
saved database; hence after a successful `Store::set`, opening a new store
at the same path and reading the key at the write type returns the written
value. -/
theorem c2_persistence {α : Type} (codec : Codec α) (db : Database) (s : Store)
    (key : String) (value : α) (encoded : Bytes) (fs : FileSys)
    (hp : s.poisoned = false) (henc : codec.encode value = some encoded)
    (hcreate : fs.createError = none) (hopen : fs.openError = none) :
    decodeDatabase (encodeDatabase db) = some db ∧
    (Store.set codec s key value fs).1 = .ok () ∧
    ∃ s2, (Store.«open» s.path (Store.set codec s key value fs).2.2).1 = .ok s2 ∧
      Store.get codec s2 key = .ok value := by
  have hdec := codec.decode_encode value encoded henc
  refine ⟨decodeDatabase_encodeDatabase db, ?_, ?_⟩
  · simp [Store.set, hp, Database.set, henc, Database.save, hcreate]
  · refine ⟨⟨⟨insertKey key encoded s.db.data⟩, s.path, false⟩, ?_, ?_⟩
    · simp [Store.set, hp, Database.set, henc, Database.save, hcreate,
        Store.«open», Database.load, openFile, hopen, lookupKey_insertKey_self,
        decodeDatabase_encodeDatabase]
    · simp [Store.get, Database.get, lookupKey_insertKey_self, hdec]

theorem c2_witness :
    decodeDatabase (encodeDatabase ⟨[("a", [1])]⟩) = some ⟨[("a", [1])]⟩ ∧
    (Store.set natCodec ⟨Database.new, "db/test.db", false⟩ "key1" 7 fs0).1 = .ok () ∧
    ∃ s2, (Store.«open» "db/test.db"
        (Store.set natCodec ⟨Database.new, "db/test.db", false⟩ "key1" 7 fs0).2.2).1
        = .ok s2 ∧
      Store.get natCodec s2 "key1" = .ok 7 :=
  c2_persistence natCodec ⟨[("a", [1])]⟩ ⟨Database.new, "db/test.db", false⟩ "key1" 7 [7]
    fs0 rfl rfl rfl rfl

/-- C3: reading a key that was never set, or whose last mutation was a
remove, fails with `KeyNotFound` carrying that key and no other error. -/
theorem c3_missing_key {α : Type} (codec : Codec α) (ops : List Op) (k path : String)
    (hist : lastTouch k ops = none ∨ lastTouch k ops = some (Op.removeOp k)) :
    Store.get codec ⟨applyOps ops, path, false⟩ k = .error (.KeyNotFound k) := by
  have h0 := lookupKey_applyOps_none k ops hist
  simp [Store.get, Database.get, h0]

theorem c3_witness :
    Store.get natCodec
      ⟨applyOps [Op.setOp "key1" 1, Op.removeOp "key1"], "db/test.db", false⟩ "key1"
      = .error (.KeyNotFound "key1") :=
  c3_missing_key natCodec [Op.setOp "key1" 1, Op.removeOp "key1"] "key1" "db/test.db"
    (Or.inr (by decide))

/-- C4: a file that exists but does not decode as a database makes `load`
(and hence `Store::open`) fail with the `Bincode` deserialization error,
and the file is neither recovered nor regenerated. -/
theorem c4_corrupt_no_recovery (path : String) (fs : FileSys) (bad : Bytes)
    (hopen : fs.openError = none) (hfile : lookupKey path fs.files = some bad)
    (hbad : decodeDatabase bad = none) :
    (Database.load path fs).1 = .error .Bincode ∧
    (Database.load path fs).2.files = fs.files ∧
    (Store.«open» path fs).1 = .error .Bincode ∧
    (Store.«open» path fs).2.files = fs.files := by
  simp [Database.load, openFile, hopen, hfile, hbad, Store.«open»]

theorem c4_witness :
    (Database.load "p" ⟨[("p", [])], [], none, none⟩).1 = .error .Bincode ∧
    (Database.load "p" ⟨[("p", [])], [], none, none⟩).2.files = [("p", [])] ∧
    (Store.«open» "p" ⟨[("p", [])], [], none, none⟩).1 = .error .Bincode ∧
    (Store.«open» "p" ⟨[("p", [])], [], none, none⟩).2.files = [("p", [])] :=
  c4_corrupt_no_recovery "p" ⟨[("p", [])], [], none, none⟩ [] rfl rfl rfl

/-- C5: `Store::set` fails when the encode step fails or when the save
step fails; when encoding succeeded but the save failed, the in-memory
map already holds the new entry while the backing file is unchanged. -/
theorem c5_set_failure_modes {α : Type} (codec : Codec α) (s : Store) (key : String)
    (value : α) (fs : FileSys) (hp : s.poisoned = false) :
    (codec.encode value = none →
      Store.set codec s key value fs = (.error .Bincode, s, fs)) ∧
    (∀ encoded e, codec.encode value = some encoded → fs.createError = some e →
      (Store.set codec s key value fs).1 = .error (.Io e) ∧
      lookupKey key (Store.set codec s key value fs).2.1.db.data = some encoded ∧
      (Store.set codec s key value fs).2.2 = fs) := by
  constructor
  · intro henc
    simp [Store.set, hp, Database.set, henc]
  · intro encoded e henc hcrt
    simp [Store.set, hp, Database.set, henc, Database.save, hcrt,
      lookupKey_insertKey_self]

theorem c5_witness :
    ((natCodec.encode 7 = none →
      Store.set natCodec ⟨Database.new, "p", false⟩ "k" 7 ⟨[], [], none, some .Other⟩
        = (.error .Bincode, ⟨Database.new, "p", false⟩, ⟨[], [], none, some .Other⟩)) ∧
    (∀ encoded e, natCodec.encode 7 = some encoded →
      (⟨[], [], none, some .Other⟩ : FileSys).createError = some e →
      (Store.set natCodec ⟨Database.new, "p", false⟩ "k" 7
        ⟨[], [], none, some .Other⟩).1 = .error (.Io e) ∧
      lookupKey "k" (Store.set natCodec ⟨Database.new, "p", false⟩ "k" 7
        ⟨[], [], none, some .Other⟩).2.1.db.data = some encoded ∧
      (Store.set natCodec ⟨Database.new, "p", false⟩ "k" 7
        ⟨[], [], none, some .Other⟩).2.2 = ⟨[], [], none, some .Other⟩)) :=
  c5_set_failure_modes natCodec ⟨Database.new, "p", false⟩ "k" 7
    ⟨[], [], none, some .Other⟩ rfl

/-- C6: loading a missing file creates the parent directories and a
backing file holding the empty map's encoding and returns the empty
database; any `File::open` failure other than `NotFound` propagates as an
`Io` error. -/
theorem c6_missing_file (path : String) (fs : FileSys)
    (hfile : lookupKey path fs.files = none) :
    (fs.openError = none → fs.createError = none →
      (Database.load path fs).1 = .ok Database.new ∧
      lookupKey path (Database.load path fs).2.files
        = some (encodeDatabase Database.new) ∧
      ∀ d ∈ ancestors path, d ∈ (Database.load path fs).2.dirs) ∧
    (∀ e, fs.openError = some e → e ≠ .NotFound →
      Database.load path fs
        = (.error (.Io e), { fs with dirs := ancestors path ++ fs.dirs })) := by
  constructor
  · intro hopen hcrt
    refine ⟨?_, ?_, ?_⟩
    · simp [Database.load, openFile, hopen, hfile, Database.save, hcrt]
    · simp [Database.load, openFile, hopen, hfile, Database.save, hcrt,
        lookupKey_insertKey_self]
    · intro d hd
      simp [Database.load, openFile, hopen, hfile, Database.save, hcrt]
      exact Or.inl hd
  · intro e hopen hne
    simp [Database.load, openFile, hopen, hne]

theorem c6_witness :
    ((fs0.openError = none → fs0.createError = none →
      (Database.load "db/test.db" fs0).1 = .ok Database.new ∧
      lookupKey "db/test.db" (Database.load "db/test.db" fs0).2.files
        = some (encodeDatabase Database.new) ∧
      ∀ d ∈ ancestors "db/test.db", d ∈ (Database.load "db/test.db" fs0).2.dirs) ∧
    (∀ e, fs0.openError = some e → e ≠ .NotFound →
      Database.load "db/test.db" fs0
        = (.error (.Io e), { fs0 with dirs := ancestors "db/test.db" ++ fs0.dirs }))) :=
  c6_missing_file "db/test.db" fs0 rfl

/-- C7: removing an absent key succeeds with no error and leaves the store
(and in particular its map) unchanged. -/
theorem c7_remove_absent (s : Store) (key : String) (fs : FileSys)
    (hp : s.poisoned = false) (hcreate : fs.createError = none)
    (habs : lookupKey key s.db.data = none) :
    (Store.remove s key fs).1 = .ok () ∧ (Store.remove s key fs).2.1 = s := by
  obtain ⟨⟨d⟩, path, poisoned⟩ := s
  simp only [Store.poisoned] at hp
  simp only [Store.db, Database.data] at habs
  subst hp
  have he : eraseKey key d = d := eraseKey_of_lookupKey_none key d habs
  simp [Store.remove, Database.remove, he, Database.save, hcreate]

theorem c7_witness :
    (Store.remove ⟨⟨[("a", [1])]⟩, "p", false⟩ "key1" fs0).1 = .ok () ∧
    (Store.remove ⟨⟨[("a", [1])]⟩, "p", false⟩ "key1" fs0).2.1
      = ⟨⟨[("a", [1])]⟩, "p", false⟩ :=
  c7_remove_absent ⟨⟨[("a", [1])]⟩, "p", false⟩ "key1" fs0 rfl rfl rfl

/-- C8: once the lock is poisoned, `Store::set`, `Store::get`, and
`Store::remove` each return the explicit `Io` "Lock poisoned" error
instead of succeeding against stale state. -/
theorem c8_poisoned_lock {α : Type} (codec : Codec α) (s : Store) (key : String)
    (value : α) (fs : FileSys) (hp : s.poisoned = true) :
    (Store.set codec s key value fs).1 = .error (.Io .Other) ∧
    Store.get codec s key = (.error (.Io .Other) : Except StoreError α) ∧
    (Store.remove s key fs).1 = .error (.Io .Other) := by
  simp [Store.set, Store.get, Store.remove, hp]

theorem c8_witness :
    (Store.set natCodec ⟨Database.new, "p", true⟩ "k" 7 fs0).1 = .error (.Io .Other) ∧
    Store.get natCodec ⟨Database.new, "p", true⟩ "k"
      = (.error (.Io .Other) : Except StoreError Nat) ∧
    (Store.remove ⟨Database.new, "p", true⟩ "k" fs0).1 = .error (.Io .Other) :=
  c8_poisoned_lock natCodec ⟨Database.new, "p", true⟩ "k" 7 fs0 rfl

/-- C9: when the value cannot be serialized, `Store::set` fails with the
serialization error and both the in-memory map and the backing file are
unchanged: the save step is never attempted. -/
theorem c9_encode_failure_unchanged {α : Type} (codec : Codec α) (s : Store)
    (key : String) (value : α) (fs : FileSys)
    (hp : s.poisoned = false) (henc : codec.encode value = none) :
    Store.set codec s key value fs = (.error .Bincode, s, fs) := by
  simp [Store.set, Database.set, hp, henc]

theorem c9_witness :
    Store.set fallibleCodec ⟨Database.new, "p", false⟩ "k" 0 fs0
      = (.error .Bincode, ⟨Database.new, "p", false⟩, fs0) :=
  c9_encode_failure_unchanged fallibleCodec ⟨Database.new, "p", false⟩ "k" 0 fs0 rfl rfl

/-- C10: a successful `Database::set` changes only the entry for the given
key: every other key's stored bytes, and hence the result of `get` on it
at any type, are the same after the call as before it. -/
theorem c10_set_frame {α β : Type} (codec : Codec α) (codec2 : Codec β)
    (db db' : Database) (key k' : String) (value : α)
    (hset : db.set codec key value = .ok db') (hne : k' ≠ key) :
    lookupKey k' db'.data = lookupKey k' db.data ∧
    db'.get codec2 k' = db.get codec2 k' := by
  cases henc : codec.encode value with
  | none => simp [Database.set, henc] at hset
  | some encoded =>
    simp only [Database.set, henc] at hset
    cases hset
    have hl := lookupKey_insertKey_ne key k' hne encoded db.data
    exact ⟨hl, by simp [Database.get, hl]⟩

theorem c10_witness :
    lookupKey "b" (⟨[("a", [7])]⟩ : Database).data
      = lookupKey "b" Database.new.data ∧
    Database.get natCodec ⟨[("a", [7])]⟩ "b" = Database.get natCodec Database.new "b" :=
  c10_set_frame natCodec natCodec Database.new ⟨[("a", [7])]⟩ "a" "b" 7 rfl
    (by decide)
